import Mathlib

/-
Verification of the interactive core of the Cursive terminal-UI toolkit.

The development shallowly embeds the two provided source files:
  * `src/backend/curses/n.rs` — the ncurses backend: the color-pair cache
    (`insert_color`, `get_or_create`), the style state (`set_colors`,
    `with_color`), and the raw-code decoder (`parse_ncurses_char`,
    `poll_event`);
  * `src/views/dialog.rs` — the composite `Dialog` widget: measurement
    (`required_size`), the focus state machine (`on_event`, `take_focus`),
    construction (`around`, `button`) and tree search (`call_on_any`).

Support types from modules outside the provided sources (`Vec2`/`Vec4`
from `vec.rs`, `ColorPair` from `theme.rs`, `Event`/`Key` from `event.rs`,
`utf8::read_char`, `find_closest`) are modelled from the specification and
are marked as such in their doc comments.

Machine integers: the source stores color-pair slots as `i16` and codes as
`i32`.  The embedding uses unbounded `Int`; theorems about the cache carry
the hypothesis that the terminal-reported capacity fits in an `i16`
(`N ≤ 32767`), under which the unbounded model is exact (slot indices never
exceed the capacity).
-/

/-! ## Geometry: `Vec2` and `Vec4` -/

/-- Modelled from the spec: a 2-D size `(columns, rows)` (`vec.rs` is not
among the provided sources).  Sizes are non-negative. -/
structure Vec2 where
  x : Nat
  y : Nat
deriving DecidableEq, Repr

/-- Modelled from the spec: componentwise addition of sizes. -/
def Vec2.add (a b : Vec2) : Vec2 := ⟨a.x + b.x, a.y + b.y⟩

/-- Modelled from the spec: "every inset/subtraction against available
space is a saturating or checked operation" — checked componentwise
subtraction, `none` when either axis would underflow. -/
def Vec2.checkedSub (a b : Vec2) : Option Vec2 :=
  if b.x ≤ a.x ∧ b.y ≤ a.y then some ⟨a.x - b.x, a.y - b.y⟩ else none

/-- Modelled from the spec: a 4-sided inset (padding or borders), fields in
the order of the source constructor `Vec4::new(left, right, top, bottom)`. -/
structure Vec4 where
  left : Nat
  right : Nat
  top : Nat
  bottom : Nat
deriving DecidableEq, Repr

/-- Modelled from the spec: the total size consumed by a 4-sided inset,
`(left+right, top+bottom)` — "overall desired size … plus padding and
borders". -/
def Vec4.combined (v : Vec4) : Vec2 := ⟨v.left + v.right, v.top + v.bottom⟩

/-! ## Colors and the color-pair cache (`backend/curses/n.rs`) -/

/-- Modelled from the spec: an abstract color (`theme.rs` is not among the
provided sources).  Only equality of colors matters to the cache, so colors
are represented by an index. -/
abbrev Color := Nat

/-- `ColorPair` from `theme.rs` (modelled from the spec: "an ordered pair
(foreground, background) of abstract colors. Value type, compared by
equality, used as a cache key"). -/
structure ColorPair where
  front : Color
  back : Color
deriving DecidableEq, Repr

/-- Modelled from the spec: the external "closest color" collaborator
(`find_closest` lives in `backend/curses/mod.rs`, not among the provided
sources).  Its result never feeds back into the cache logic, so it is
modelled as the identity embedding into driver color numbers. -/
def find_closest (c : Color) : Int := (c : Int)

/-- One call into the ncurses driver, as recorded by the model.
`initPair` is the palette-definition primitive `ncurses::init_pair`;
`attron` applies a style. -/
inductive DriverCall where
  | initPair (slot : Int) (front : Int) (back : Int)
  | attron (slot : Int)
deriving DecidableEq, Repr

/-- The cache `pairs: HashMap<ColorPair, i16>`, modelled as an association
list with distinct keys (key distinctness is part of `cacheInv`). -/
abbrev Cache := List (ColorPair × Int)

/-- `pairs.contains_key(&pair)` / `pairs[&pair]` combined: first value
stored under key `p`. -/
def lookupPair : Cache → ColorPair → Option Int
  | [], _ => none
  | e :: rest, p => if e.1 = p then some e.2 else lookupPair rest p

/-- `Concrete::insert_color` (n.rs lines 18–38).  `N` is the value of
`ncurses::COLOR_PAIRS()` (the terminal-reported pair capacity).  Returns
the assigned slot, the new cache, and the driver calls performed.
`pairs.retain(|_, &mut v| v != target)` keeps entries whose slot differs
from `target`; `pairs.insert(pair, target)` overwrites any entry for
`pair`. -/
def insert_color (N : Int) (m : Cache) (p : ColorPair) :
    Int × Cache × List DriverCall :=
  let n : Int := 1 + m.length
  let tm : Int × Cache :=
    if N > n then
      -- We still have plenty of space for everyone.
      (n, m)
    else
      -- The world is too small for both of us: reuse slot n - 1.
      (n - 1, m.filter (fun e => !decide (e.2 = n - 1)))
  let m2 : Cache := (p, tm.1) :: tm.2.filter (fun e => !decide (e.1 = p))
  (tm.1, m2, [DriverCall.initPair tm.1 (find_closest p.front) (find_closest p.back)])

/-- `Concrete::get_or_create` (n.rs lines 41–52): return the memoized slot,
or define a new pair.  A cache hit performs no driver call. -/
def get_or_create (N : Int) (m : Cache) (p : ColorPair) :
    Int × Cache × List DriverCall :=
  match lookupPair m p with
  | some v => (v, m, [])
  | none => insert_color N m p

/-- The mutable backend state of `Concrete`: the current style, the pair
cache, and (for observation) the log of driver calls made so far. -/
structure BState where
  currentStyle : ColorPair
  pairs : Cache
  log : List DriverCall
deriving Repr

/-- `Concrete::set_colors` (n.rs lines 54–61): allocate (or find) the slot,
record the pair as current, apply it via `attron`. -/
def set_colors (N : Int) (s : BState) (p : ColorPair) : BState :=
  let r := get_or_create N s.pairs p
  { currentStyle := p
    pairs := r.2.1
    log := s.log ++ r.2.2 ++ [DriverCall.attron r.1] }

/-- `Concrete::with_color` (n.rs lines 101–112).  The callback `f` is an
arbitrary transformation of the backend state (it may itself change colors
through the same backend). -/
def with_color (N : Int) (s : BState) (colors : ColorPair)
    (f : BState → BState) : BState :=
  let current := s.currentStyle
  let s1 := if current ≠ colors then set_colors N s colors else s
  let s2 := f s1
  if current ≠ colors then set_colors N s2 current else s2

/-! ### Cache invariant

Issued slots of a reachable cache of size `k` are exactly `1, …, k`
(as a multiset), keys are distinct, and `k ≤ N - 1`. -/

/-- The slots `[1, 2, …, len]` as integers. -/
def idealSlots (len : Nat) : List Int :=
  List.map (fun k => ((k : Nat) : Int)) (List.range' 1 len)

/-- Invariant of reachable caches against capacity `N`: distinct keys, at
most `N - 1` entries, and the stored slots are a permutation of
`1, …, length`. -/
def cacheInv (N : Int) (m : Cache) : Prop :=
  (m.map Prod.fst).Nodup ∧ ((m.length : Int) ≤ N - 1) ∧
    (m.map Prod.snd).Perm (idealSlots m.length)

instance (N : Int) (m : Cache) : Decidable (cacheInv N m) := by
  unfold cacheInv; infer_instance

/-- A whole run of the cache from a given state: slots returned, final
cache. -/
def runAll (N : Int) (m : Cache) : List ColorPair → List Int × Cache
  | [] => ([], m)
  | p :: ps =>
    let r := get_or_create N m p
    let rest := runAll N r.2.1 ps
    (r.1 :: rest.1, rest.2)

/-! ## Events and the key decoder (`backend/curses/n.rs`) -/

/-- Named keys, from `event.rs` (modelled from the spec's event vocabulary:
arrow/navigation keys, `Tab`, `Enter`, `Esc`, `Backspace`, function keys).
`f n` stands for `Key::from_f(n)`; `endKey` is `Key::End` (`end` is a
reserved word here). -/
inductive Key where
  | tab
  | enter
  | esc
  | backspace
  | del
  | ins
  | left
  | right
  | up
  | down
  | home
  | endKey
  | pageUp
  | pageDown
  | numpadCenter
  | f (n : Nat)
deriving DecidableEq, Repr

/-- The `Event` vocabulary, from `event.rs` (modelled from the spec §3: a
printable character, a named key optionally decorated with one of
{Shift, Alt, AltShift, Ctrl, CtrlShift, CtrlAlt}, a control character keyed
by its code point, a refresh tick, a resize notification, and the
raw/unknown fallback carrying undecoded bytes).  Characters and control
characters are carried as Unicode code points. -/
inductive Event where
  | char (c : Nat)
  | ctrlChar (c : Nat)
  | key (k : Key)
  | shift (k : Key)
  | alt (k : Key)
  | altShift (k : Key)
  | ctrl (k : Key)
  | ctrlShift (k : Key)
  | ctrlAlt (k : Key)
  | refresh
  | windowResize
  | unknown (bytes : List Nat)
deriving DecidableEq, Repr

/-! Numeric values of the ncurses key constants used by the decoder
(curses protocol values: `KEY_DOWN = 0o402 = 258`, …). -/

def KEY_DOWN : Int := 258
def KEY_UP : Int := 259
def KEY_LEFT : Int := 260
def KEY_RIGHT : Int := 261
def KEY_HOME : Int := 262
def KEY_BACKSPACE : Int := 263
def KEY_F0 : Int := 264
def KEY_F1 : Int := 265
def KEY_F12 : Int := 276
def KEY_DC : Int := 330
def KEY_IC : Int := 331
def KEY_SF : Int := 336
def KEY_SR : Int := 337
def KEY_NPAGE : Int := 338
def KEY_PPAGE : Int := 339
def KEY_ENTER : Int := 343
def KEY_B2 : Int := 350
def KEY_BTAB : Int := 353
def KEY_END : Int := 360
def KEY_SDC : Int := 383
def KEY_SEND : Int := 386
def KEY_SHOME : Int := 391
def KEY_SLEFT : Int := 393
def KEY_SNEXT : Int := 396
def KEY_SPREVIOUS : Int := 398
def KEY_SRIGHT : Int := 402
def KEY_RESIZE : Int := 410

/-- The 4 little-endian bytes of the `i32` code `ch`, as produced by the
catch-all arm of `parse_ncurses_char`:
`(0..4).map(|i| ((other >> (8 * i)) & 0xFF) as u8)`.  For an `i32` this
equals the base-256 digits of the code's 32-bit two's-complement bit
pattern. -/
def leBytes (ch : Int) : List Nat :=
  let u : Nat := (ch % (2 ^ 32 : Int)).toNat
  [u % 256, u / 256 % 256, u / 65536 % 256, u / 16777216 % 256]

set_option maxHeartbeats 1600000 in
/-- The ordered match arms of `parse_ncurses_char` (n.rs lines 165–287),
minus the catch-all: each arm is the (decidable) guard paired with the
event it produces.  The first arm whose guard holds wins, exactly as in
the source `match`. -/
def parseRules (ch : Int) : List (Bool × Event) :=
  [ -- Value sent by ncurses when nothing happens
    (ch == -1, .refresh),
    -- Tab is '\t'
    (ch == 9, .key .tab),
    -- Treat '\n' and the numpad Enter the same
    (ch == 10 || ch == KEY_ENTER, .key .enter),
    -- Escape key pressed by itself
    (ch == 27, .key .esc),
    -- `Backspace` sends 127, but Ctrl-H sends `Backspace`
    (ch == 127 || ch == KEY_BACKSPACE, .key .backspace),
    (ch == 410, .windowResize),
    -- Values 512 and above are extensions
    (ch == 520, .alt .del),
    (ch == 521, .altShift .del),
    (ch == 522, .ctrl .del),
    (ch == 523, .ctrlShift .del),
    (ch == 526, .alt .down),
    (ch == 527, .altShift .down),
    (ch == 528, .ctrl .down),
    (ch == 529, .ctrlShift .down),
    (ch == 530, .ctrlAlt .down),
    (ch == 531, .alt .endKey),
    (ch == 532, .altShift .endKey),
    (ch == 533, .ctrl .endKey),
    (ch == 534, .ctrlShift .endKey),
    (ch == 535, .ctrlAlt .endKey),
    (ch == 536, .alt .home),
    (ch == 537, .altShift .home),
    (ch == 538, .ctrl .home),
    (ch == 539, .ctrlShift .home),
    (ch == 540, .ctrlAlt .home),
    (ch == 541, .alt .ins),
    (ch == 542, .altShift .ins),
    (ch == 543, .ctrl .ins),
    (ch == 545, .ctrlAlt .ins),
    (ch == 546, .alt .left),
    (ch == 547, .altShift .left),
    (ch == 548, .ctrl .left),
    (ch == 549, .ctrlShift .left),
    (ch == 550, .ctrlAlt .left),
    (ch == 551, .alt .pageDown),
    (ch == 552, .altShift .pageDown),
    (ch == 553, .ctrl .pageDown),
    (ch == 554, .ctrlShift .pageDown),
    (ch == 555, .ctrlAlt .pageDown),
    (ch == 556, .alt .pageUp),
    (ch == 557, .altShift .pageUp),
    (ch == 558, .ctrl .pageUp),
    (ch == 559, .ctrlShift .pageUp),
    (ch == 560, .ctrlAlt .pageUp),
    (ch == 561, .alt .right),
    (ch == 562, .altShift .right),
    (ch == 563, .ctrl .right),
    (ch == 564, .ctrlShift .right),
    (ch == 565, .ctrlAlt .right),
    (ch == 567, .alt .up),
    (ch == 568, .altShift .up),
    (ch == 569, .ctrl .up),
    (ch == 570, .ctrlShift .up),
    (ch == 571, .ctrlAlt .up),
    (ch == KEY_B2, .key .numpadCenter),
    (ch == KEY_DC, .key .del),
    (ch == KEY_IC, .key .ins),
    (ch == KEY_BTAB, .shift .tab),
    (ch == KEY_SLEFT, .shift .left),
    (ch == KEY_SRIGHT, .shift .right),
    (ch == KEY_LEFT, .key .left),
    (ch == KEY_RIGHT, .key .right),
    (ch == KEY_UP, .key .up),
    (ch == KEY_DOWN, .key .down),
    (ch == KEY_SR, .shift .up),
    (ch == KEY_SF, .shift .down),
    (ch == KEY_PPAGE, .key .pageUp),
    (ch == KEY_NPAGE, .key .pageDown),
    (ch == KEY_HOME, .key .home),
    (ch == KEY_END, .key .endKey),
    (ch == KEY_SHOME, .shift .home),
    (ch == KEY_SEND, .shift .endKey),
    (ch == KEY_SDC, .shift .del),
    (ch == KEY_SNEXT, .shift .pageDown),
    (ch == KEY_SPREVIOUS, .shift .pageUp),
    -- All Fn keys use the same enum with associated number
    (decide (KEY_F1 ≤ ch) && decide (ch ≤ KEY_F12), .key (.f (ch - KEY_F0).toNat)),
    (decide (277 ≤ ch) && decide (ch ≤ 288), .shift (.f (ch - 276).toNat)),
    (decide (289 ≤ ch) && decide (ch ≤ 300), .ctrl (.f (ch - 288).toNat)),
    (decide (301 ≤ ch) && decide (ch ≤ 312), .ctrlShift (.f (ch - 300).toNat)),
    (decide (313 ≤ ch) && decide (ch ≤ 324), .alt (.f (ch - 312).toNat)),
    -- 1...25: Ctrl + letter ('a' + code - 1)
    (decide (1 ≤ ch) && decide (ch ≤ 25), .ctrlChar (97 + (ch - 1)).toNat) ]

/-- Whether some non-catch-all arm of the source `match` fires for `ch`. -/
def recognized (ch : Int) : Bool := (parseRules ch).any (fun r => r.1)

/-- `parse_ncurses_char` (n.rs lines 165–287): the first matching arm, or
the raw/unknown fallback carrying the 4 little-endian bytes of `ch`. -/
def parse_ncurses_char (ch : Int) : Event :=
  match (parseRules ch).find? (fun r => r.1) with
  | some r => r.2
  | none => .unknown (leBytes ch)

/-- Modelled from the spec: `utf8::read_char` (module `utf8` is not among
the provided sources).  Spec §4.3: a code in 32–255 except 127 is "the
start of a UTF-8 sequence: read continuation bytes via the supplied byte
source until the code point is complete; yield a Character event".
Standard UTF-8 length-by-leading-byte decoding, total in the supplier;
`next i` is the `i`-th continuation byte the supplier produces. -/
def read_char (first : Nat) (next : Nat → Nat) : Nat :=
  if first < 128 then first
  else if first < 224 then (first % 32) * 64 + next 0 % 64
  else if first < 240 then
    (first % 16) * 4096 + (next 0 % 64) * 64 + next 1 % 64
  else
    (first % 8) * 262144 + (next 0 % 64) * 4096 + (next 1 % 64) * 64 +
      next 2 % 64

/-- `Concrete::poll_event` (n.rs lines 142–153), as a function of the raw
code `ch` returned by `ncurses::getch()` and of the stream of further
bytes the terminal would deliver.  A code in 32–255 except 127 starts a
UTF-8 sequence; every other code goes through `parse_ncurses_char`. -/
def poll_event (ch : Int) (next : Nat → Nat) : Event :=
  if 32 ≤ ch ∧ ch ≤ 255 ∧ ch ≠ 127 then
    .char (read_char ch.toNat next)
  else
    parse_ncurses_char ch

/-! ## The composite Dialog widget (`views/dialog.rs`) -/

/-- `EventResult` from `event.rs` (modelled from the spec: "Consumed
(optional deferred action) | Ignored"; the deferred callback itself is
opaque and represented by an identifier). -/
inductive EventResult where
  | ignored
  | consumed (cb : Option Nat)
deriving DecidableEq, Repr

/-- `Direction` from `direction.rs` (modelled from the spec: the entry
direction of a focus negotiation — "from above", "from the front/back of a
tab sequence", or anything else). -/
inductive Direction where
  | down
  | back
  | front
  | other
deriving DecidableEq, Repr

/-- Horizontal alignment of the button row (`align.rs`, modelled from the
spec). -/
inductive HAlign where
  | left
  | center
  | right
deriving DecidableEq, Repr

/-- Vertical alignment (`align.rs`, modelled from the spec). -/
inductive VAlign where
  | top
  | center
  | bottom
deriving DecidableEq, Repr

/-- `Align` from `align.rs` (modelled from the spec). -/
structure Align where
  h : HAlign
  v : VAlign
deriving DecidableEq, Repr

/-- `Align::top_right()`. -/
def Align.topRight : Align := ⟨HAlign.right, VAlign.top⟩

/-- A child widget (the dialog's content, or one button) seen through the
widget contract, as the dialog uses it: its event handler, its focus
negotiation, its measurement, and the identifiers of the matching
descendants its own `call_on_any` would apply the callback to.  Children
are modelled as pure responders: the dialog's logic treats them as black
boxes and the claims quantify over their behavior. -/
structure ChildView where
  onEvent : Event → EventResult
  takeFocus : Direction → Bool
  requiredSize : Vec2 → Vec2
  callOnAny : Nat → List Nat

/-- The `Focus` enum of `dialog.rs` (lines 18–22). -/
inductive Focus where
  | content
  | button (i : Nat)
deriving DecidableEq, Repr

/-- The `Dialog` struct (dialog.rs lines 33–45).  `title` is kept as a
string; following the spec's measurement rule, its display width is
modelled by its length. -/
structure DialogM where
  title : String
  content : ChildView
  buttons : List ChildView
  padding : Vec4
  borders : Vec4
  focus : Focus
  align : Align

/-- `Dialog::around` (dialog.rs lines 58–68): content as given, no
buttons, empty title, focus on content, padding `Vec4::new(1, 1, 0, 0)`,
borders `Vec4::new(1, 1, 1, 1)`, alignment top-right. -/
def DialogM.around (content : ChildView) : DialogM :=
  { title := ""
    content := content
    buttons := []
    padding := ⟨1, 1, 0, 0⟩
    borders := ⟨1, 1, 1, 1⟩
    focus := Focus.content
    align := Align.topRight }

/-- `Dialog::button` (dialog.rs lines 99–105): push one button.  The
behavior of the new `SizedView<Button>` is abstracted by `b`. -/
def DialogM.button (d : DialogM) (b : ChildView) : DialogM :=
  { d with buttons := d.buttons ++ [b] }

/-- `Dialog::required_size` (dialog.rs lines 248–288). -/
def DialogM.requiredSize (d : DialogM) (req : Vec2) : Vec2 :=
  -- Padding and borders are not available for kids.
  let nomansLand := d.padding.combined.add d.borders.combined
  -- Start with the inter-button space (`len().saturating_sub(1)`).
  let buttonsSize := d.buttons.foldl
    (fun (acc : Vec2) b =>
      let s := b.requiredSize req
      ⟨acc.x + s.x, max acc.y (s.y + 1)⟩)
    ⟨d.buttons.length - 1, 0⟩
  -- We also remove one row for the buttons.
  let taken := nomansLand.add ⟨0, buttonsSize.y⟩
  match req.checkedSub taken with
  | none => taken
  | some contentReq =>
    let contentSize := d.content.requiredSize contentReq
    -- On the Y axis, we add buttons and content.
    -- On the X axis, we take the max.
    let innerSize :=
      (Vec2.mk (max contentSize.x buttonsSize.x)
        (contentSize.y + buttonsSize.y)).add
        (d.padding.combined.add d.borders.combined)
    if d.title.isEmpty then innerSize
    else ⟨max innerSize.x (d.title.length + 6), innerSize.y⟩

/-- `Dialog::on_event` (dialog.rs lines 311–379).  The source indexes
`self.buttons[i]`, which panics when out of range; the model returns
`ignored` there, and the focus-validity invariant shows the case is
unreachable from valid states. -/
def DialogM.onEvent (d : DialogM) (e : Event) : DialogM × EventResult :=
  match d.focus with
  -- If we are on the content, we can only go down.
  | Focus.content =>
    match d.content.onEvent e with
    | EventResult.ignored =>
      if d.buttons.isEmpty then (d, EventResult.ignored)
      else
        match e with
        -- Default to leftmost button when going down.
        | Event.key Key.down | Event.key Key.tab | Event.shift Key.tab =>
          ({ d with focus := Focus.button 0 }, EventResult.consumed none)
        | _ => (d, EventResult.ignored)
    | res => (d, res)
  -- If we are on a button, we have more choice
  | Focus.button i =>
    match d.buttons[i]? with
    | none => (d, EventResult.ignored)
    | some b =>
      match b.onEvent e with
      | EventResult.ignored =>
        match e with
        -- Up goes back to the content
        | Event.key Key.up =>
          if d.content.takeFocus Direction.down then
            ({ d with focus := Focus.content }, EventResult.consumed none)
          else (d, EventResult.ignored)
        | Event.shift Key.tab =>
          if d.content.takeFocus Direction.back then
            ({ d with focus := Focus.content }, EventResult.consumed none)
          else (d, EventResult.ignored)
        | Event.key Key.tab =>
          if d.content.takeFocus Direction.front then
            ({ d with focus := Focus.content }, EventResult.consumed none)
          else (d, EventResult.ignored)
        -- Left and Right move to other buttons
        | Event.key Key.right =>
          if i + 1 < d.buttons.length then
            ({ d with focus := Focus.button (i + 1) }, EventResult.consumed none)
          else (d, EventResult.ignored)
        | Event.key Key.left =>
          if i > 0 then
            ({ d with focus := Focus.button (i - 1) }, EventResult.consumed none)
          else (d, EventResult.ignored)
        | _ => (d, EventResult.ignored)
      | res => (d, res)

/-- `Dialog::take_focus` (dialog.rs lines 381–393): try the content first,
else the first button, else fail. -/
def DialogM.takeFocus (d : DialogM) (source : Direction) : DialogM × Bool :=
  if d.content.takeFocus source then
    ({ d with focus := Focus.content }, true)
  else if !d.buttons.isEmpty then
    ({ d with focus := Focus.button 0 }, true)
  else (d, false)

/-- `Dialog::call_on_any` (dialog.rs lines 395–398): the search is
forwarded to the content widget.  Result: the identifiers of the matching
descendants the callback is applied to. -/
def DialogM.callOnAny (d : DialogM) (selector : Nat) : List Nat :=
  d.content.callOnAny selector

/-- The focus-validity invariant of a dialog: focus is on the content
whenever there are no buttons, and a button focus index is within the
button list. -/
def focusInv (d : DialogM) : Prop :=
  (d.buttons = [] → d.focus = Focus.content) ∧
    ∀ i, d.focus = Focus.button i → i < d.buttons.length

/-! ## Concrete scenario instances used by the theorems below -/

/-- A child that ignores every event, refuses focus, and wants `(10, 5)`. -/
def passiveChild : ChildView :=
  { onEvent := fun _ => EventResult.ignored
    takeFocus := fun _ => false
    requiredSize := fun _ => ⟨10, 5⟩
    callOnAny := fun _ => [] }

/-- The concrete dialog used to instantiate the focus-machine theorems:
passive content and a single passive button, focus on the content. -/
def oneButtonDialog : DialogM :=
  { title := ""
    content := passiveChild
    buttons := [passiveChild]
    padding := ⟨1, 1, 0, 0⟩
    borders := ⟨1, 1, 1, 1⟩
    focus := Focus.content
    align := Align.topRight }

/-- The dialog of the sizing scenario: no buttons, empty title, padding
left 1 / right 0 / top 1 / bottom 0, borders 1 everywhere, content
desiring `(10, 5)`. -/
def sizingDialog : DialogM :=
  { title := ""
    content := passiveChild
    buttons := []
    padding := ⟨1, 0, 1, 0⟩
    borders := ⟨1, 1, 1, 1⟩
    focus := Focus.content
    align := Align.topRight }

/-- A content widget whose own subtree contains no match. -/
def quietContent : ChildView :=
  { passiveChild with callOnAny := fun _ => [] }

/-- A button whose subtree contains the matching descendant `42`. -/
def matchButton : ChildView :=
  { passiveChild with callOnAny := fun _ => [42] }

/-- The dialog of the tree-search scenario. -/
def searchDialog : DialogM :=
  (DialogM.around quietContent).button matchButton

/-- The full cache used in the eviction scenario: capacity `N = 3`, both
usable slots taken. -/
def fullCache : Cache := [(⟨0, 0⟩, 1), (⟨0, 1⟩, 2)]

/-! ### Basic lemmas about the association-list cache -/

lemma lookupPair_mem {m : Cache} {p : ColorPair} {v : Int}
    (h : lookupPair m p = some v) : (p, v) ∈ m := by
  induction m with
  | nil => simp [lookupPair] at h
  | cons e rest ih =>
    by_cases he : e.1 = p
    · simp only [lookupPair, if_pos he] at h
      obtain rfl : e.2 = v := by injection h
      obtain ⟨e1, e2⟩ := e
      obtain rfl : e1 = p := he
      exact List.mem_cons_self _ _
    · simp only [lookupPair, if_neg he] at h
      exact List.mem_cons_of_mem _ (ih h)

lemma lookupPair_none {m : Cache} {p : ColorPair}
    (h : lookupPair m p = none) : ∀ e ∈ m, e.1 ≠ p := by
  induction m with
  | nil => simp
  | cons e rest ih =>
    by_cases he : e.1 = p
    · simp [lookupPair, if_pos he] at h
    · simp only [lookupPair, if_neg he] at h
      intro x hx
      rcases List.mem_cons.mp hx with rfl | hx
      · exact he
      · exact ih h x hx

lemma lookupPair_cons_self (m : Cache) (p : ColorPair) (t : Int) :
    lookupPair ((p, t) :: m) p = some t := by
  simp [lookupPair]

lemma filter_key_eq_self {m : Cache} {p : ColorPair}
    (h : ∀ e ∈ m, e.1 ≠ p) :
    m.filter (fun e => !decide (e.1 = p)) = m := by
  apply List.filter_eq_self.mpr
  intro e he
  simpa using h e he

lemma map_snd_filter_snd (m : Cache) (t : Int) :
    (m.filter (fun e => !decide (e.2 = t))).map Prod.snd
      = (m.map Prod.snd).filter (fun v => !decide (v = t)) := by
  induction m with
  | nil => rfl
  | cons e rest ih =>
    by_cases h : e.2 = t <;> simp [List.filter_cons, h, ih]

lemma map_fst_filter_sublist (m : Cache) (q : ColorPair × Int → Bool) :
    ((m.filter q).map Prod.fst).Sublist (m.map Prod.fst) :=
  (List.filter_sublist m).map Prod.fst

/-! ### Lemmas about `idealSlots` -/

lemma idealSlots_length (n : Nat) : (idealSlots n).length = n := by
  rw [idealSlots, List.length_map, List.length_range']

lemma idealSlots_succ (n : Nat) :
    idealSlots (n + 1) = idealSlots n ++ [((n : Int) + 1)] := by
  rw [idealSlots, List.range'_1_concat, List.map_append, idealSlots]
  rw [List.map_cons, List.map_nil]
  have : ((1 + n : Nat) : Int) = (n : Int) + 1 := by omega
  rw [this]

lemma mem_idealSlots {x : Int} {n : Nat} :
    x ∈ idealSlots n ↔ 1 ≤ x ∧ x ≤ (n : Int) := by
  rw [idealSlots, List.mem_map]
  constructor
  · rintro ⟨k, hk, rfl⟩
    rw [List.mem_range'_1] at hk
    omega
  · rintro ⟨h1, h2⟩
    refine ⟨x.toNat, ?_, by omega⟩
    rw [List.mem_range'_1]
    omega

lemma idealSlots_filter_last (n : Nat) (hn : 1 ≤ n) :
    (idealSlots n).filter (fun v => !decide (v = (n : Int)))
      = idealSlots (n - 1) := by
  obtain ⟨k, rfl⟩ : ∃ k, n = k + 1 := ⟨n - 1, by omega⟩
  rw [idealSlots_succ, List.filter_append]
  have h1 : (idealSlots k).filter (fun v => !decide (v = ((k + 1 : Nat) : Int)))
      = idealSlots k := by
    apply List.filter_eq_self.mpr
    intro a ha
    have := mem_idealSlots.mp ha
    simp only [Bool.not_eq_eq_eq_not, Bool.not_true, decide_eq_false_iff_not]
    omega
  have h2 : ([((k : Int) + 1)].filter (fun v => !decide (v = ((k + 1 : Nat) : Int)))) = [] := by
    simp
  rw [h1, h2, List.append_nil, Nat.add_sub_cancel]

lemma not_mem_keys {m : Cache} {p : ColorPair}
    (h : ∀ e ∈ m, e.1 ≠ p) : p ∉ m.map Prod.fst := by
  intro hp
  obtain ⟨e, he, hfe⟩ := List.mem_map.mp hp
  exact h e he hfe

/-- Unfolding of `insert_color` while the capacity is not exhausted
(`COLOR_PAIRS() > 1 + len`): the fresh slot `1 + len` is used and nothing
is evicted. -/
lemma insert_color_space (N : Int) (m : Cache) (p : ColorPair)
    (hc : N > 1 + (m.length : Int)) (hk : ∀ e ∈ m, e.1 ≠ p) :
    insert_color N m p =
      (1 + (m.length : Int), ((p, 1 + (m.length : Int)) :: m),
        [DriverCall.initPair (1 + (m.length : Int))
          (find_closest p.front) (find_closest p.back)]) := by
  simp only [insert_color, if_pos hc]
  rw [filter_key_eq_self hk]

/-- Unfolding of `insert_color` when the capacity is exhausted: slot
`len = (1 + len) - 1` is reclaimed, every entry holding it is evicted. -/
lemma insert_color_capacity (N : Int) (m : Cache) (p : ColorPair)
    (hc : ¬ N > 1 + (m.length : Int)) (hk : ∀ e ∈ m, e.1 ≠ p) :
    insert_color N m p =
      ((m.length : Int),
        ((p, (m.length : Int)) ::
          m.filter (fun e => !decide (e.2 = (m.length : Int)))),
        [DriverCall.initPair (m.length : Int)
          (find_closest p.front) (find_closest p.back)]) := by
  simp only [insert_color, if_neg hc]
  have e1 : (1 : Int) + (m.length : Int) - 1 = (m.length : Int) := by ring
  rw [e1]
  rw [filter_key_eq_self (fun e he => hk e (List.mem_of_mem_filter he))]

/-- One `get_or_create` call preserves the cache invariant; the returned
slot is in `[1, N-1]`; afterwards the pair is mapped to the returned
slot. -/
theorem get_or_create_step (N : Int) (m : Cache) (p : ColorPair)
    (hN : 2 ≤ N) (h : cacheInv N m) :
    cacheInv N (get_or_create N m p).2.1 ∧
      1 ≤ (get_or_create N m p).1 ∧ (get_or_create N m p).1 ≤ N - 1 ∧
      lookupPair (get_or_create N m p).2.1 p = some (get_or_create N m p).1 := by
  obtain ⟨hkeys, hlen, hperm⟩ := h
  cases hl : lookupPair m p with
  | some v =>
    have hg : get_or_create N m p = (v, m, []) := by
      unfold get_or_create
      rw [hl]
    rw [hg]
    refine ⟨⟨hkeys, hlen, hperm⟩, ?_, ?_, hl⟩ <;>
    · have hv : v ∈ m.map Prod.snd :=
        List.mem_map_of_mem Prod.snd (lookupPair_mem hl)
      have hv2 := mem_idealSlots.mp (hperm.mem_iff.mp hv)
      omega
  | none =>
    have hg : get_or_create N m p = insert_color N m p := by
      unfold get_or_create
      rw [hl]
    rw [hg]
    have hnotin : ∀ e ∈ m, e.1 ≠ p := lookupPair_none hl
    by_cases hc : N > 1 + (m.length : Int)
    · rw [insert_color_space N m p hc hnotin]
      refine ⟨⟨?_, ?_, ?_⟩, by omega, by omega, lookupPair_cons_self m p _⟩
      · exact List.Nodup.cons (not_mem_keys hnotin) hkeys
      · simp only [List.length_cons]
        omega
      · simp only [List.map_cons, List.length_cons, idealSlots_succ]
        have hcast : ((m.length : Nat) : Int) + 1 = 1 + (m.length : Int) := by
          ring
        rw [hcast]
        exact (hperm.cons _).trans
          (List.perm_append_singleton _ _).symm
    · have hlen1 : 1 ≤ m.length := by omega
      rw [insert_color_capacity N m p hc hnotin]
      set t : Int := (m.length : Int) with ht
      have hm1perm : ((List.filter (fun e => !decide (e.2 = t)) m).map Prod.snd).Perm
          (idealSlots (m.length - 1)) := by
        rw [map_snd_filter_snd m t]
        exact (hperm.filter _).trans
          (by rw [idealSlots_filter_last m.length hlen1])
      have hm1len : (List.filter (fun e => !decide (e.2 = t)) m).length
          = m.length - 1 := by
        have hq := hm1perm.length_eq
        rw [List.length_map] at hq
        rw [hq, idealSlots_length]
      refine ⟨⟨?_, ?_, ?_⟩, by omega, by omega, lookupPair_cons_self _ p _⟩
      · refine List.Nodup.cons ?_
          (hkeys.sublist (map_fst_filter_sublist m _))
        exact not_mem_keys
          (fun e he => hnotin e (List.mem_of_mem_filter he))
      · simp only [List.length_cons, hm1len]
        omega
      · simp only [List.map_cons, List.length_cons, hm1len]
        rw [idealSlots_succ]
        have hcast : ((m.length - 1 : Nat) : Int) + 1 = t := by omega
        rw [hcast]
        exact (hm1perm.cons t).trans
          (List.perm_append_singleton t (idealSlots (m.length - 1))).symm

/-- The invariant holds along every run, and every slot ever returned is
in `[1, N-1]`. -/
theorem runAll_inv (N : Int) (hN : 2 ≤ N) (ps : List ColorPair) :
    ∀ m : Cache, cacheInv N m →
      cacheInv N (runAll N m ps).2 ∧
        ∀ s ∈ (runAll N m ps).1, 1 ≤ s ∧ s ≤ N - 1 := by
  induction ps with
  | nil =>
    intro m hm
    exact ⟨hm, by simp [runAll]⟩
  | cons p ps ih =>
    intro m hm
    have hstep := get_or_create_step N m p hN hm
    have hrest := ih (get_or_create N m p).2.1 hstep.1
    refine ⟨hrest.1, ?_⟩
    intro s hs
    rcases List.mem_cons.mp hs with rfl | hs
    · exact ⟨hstep.2.1, hstep.2.2.1⟩
    · exact hrest.2 s hs

/-- The empty cache satisfies the invariant. -/
lemma cacheInv_nil (N : Int) (hN : 2 ≤ N) : cacheInv N [] := by
  refine ⟨List.nodup_nil, by simp; omega, ?_⟩
  simp [idealSlots]

/-- Splitting a run at its last request. -/
lemma runAll_append (N : Int) (ps : List ColorPair) (p : ColorPair) :
    ∀ m : Cache, runAll N m (ps ++ [p]) =
      ((runAll N m ps).1 ++ [(get_or_create N (runAll N m ps).2 p).1],
        (get_or_create N (runAll N m ps).2 p).2.1) := by
  induction ps with
  | nil => intro m; simp [runAll]
  | cons q ps ih => intro m; simp [runAll, ih]

/-- In a cache with distinct keys, a key determines the whole entry. -/
lemma mem_keys_unique {m : Cache} (h : (m.map Prod.fst).Nodup)
    {e e' : ColorPair × Int} (he : e ∈ m) (he' : e' ∈ m)
    (hf : e.1 = e'.1) : e = e' := by
  induction m with
  | nil => cases he
  | cons a rest ih =>
    rw [List.map_cons, List.nodup_cons] at h
    rcases List.mem_cons.mp he with he1 | he1
    · rcases List.mem_cons.mp he' with he2 | he2
      · rw [he1, he2]
      · exfalso
        apply h.1
        have hm : e'.1 ∈ rest.map Prod.fst := List.mem_map_of_mem Prod.fst he2
        rw [← hf, he1] at hm
        exact hm
    · rcases List.mem_cons.mp he' with he2 | he2
      · exfalso
        apply h.1
        have hm : e.1 ∈ rest.map Prod.fst := List.mem_map_of_mem Prod.fst he1
        rw [hf, he2] at hm
        exact hm
      · exact ih h.2 he1 he2

/-- Right after `insert_color`, the inserted pair is mapped to the
returned slot. -/
lemma lookupPair_insert_color (N : Int) (m : Cache) (p : ColorPair) :
    lookupPair (insert_color N m p).2.1 p = some (insert_color N m p).1 := by
  unfold insert_color
  by_cases hc : N > 1 + (m.length : Int) <;> simp [hc, lookupPair]

/-- Right after any `get_or_create`, the requested pair is mapped to the
returned slot. -/
lemma lookupPair_get_or_create (N : Int) (m : Cache) (p : ColorPair) :
    lookupPair (get_or_create N m p).2.1 p = some (get_or_create N m p).1 := by
  cases hl0 : lookupPair m p with
  | some v =>
    have hg : get_or_create N m p = (v, m, []) := by
      unfold get_or_create
      rw [hl0]
    rw [hg]
    exact hl0
  | none =>
    have hg : get_or_create N m p = insert_color N m p := by
      unfold get_or_create
      rw [hl0]
    rw [hg]
    exact lookupPair_insert_color N m p

/-- C5: for every reachable cache state (one satisfying the cache
invariant) holding exactly `N - 1` entries, where `N ≥ 2` is the
terminal-reported pair capacity (within the `i16` slot range), a
`get_or_create` call with a pair not in the cache assigns the new pair
slot `N - 1` — the highest previously-issued slot — removes the pair that
previously held slot `N - 1` (and keeps every other entry), and the cache
size stays `N - 1`. -/
theorem c5_eviction (N : Int) (hN : 2 ≤ N) (hN16 : N ≤ 32767)
    (m : Cache) (p : ColorPair) (hinv : cacheInv N m)
    (hfull : (m.length : Int) = N - 1) (hnew : lookupPair m p = none) :
    (get_or_create N m p).1 = N - 1 ∧
      ((get_or_create N m p).2.1.length : Int) = N - 1 ∧
      lookupPair (get_or_create N m p).2.1 p = some (N - 1) ∧
      (∀ e ∈ m, e.2 = N - 1 → e.1 ∉ (get_or_create N m p).2.1.map Prod.fst) ∧
      (∀ e ∈ m, e.2 ≠ N - 1 → e ∈ (get_or_create N m p).2.1) := by
  obtain ⟨hkeys, hlen, hperm⟩ := hinv
  have hg : get_or_create N m p = insert_color N m p := by
    unfold get_or_create
    rw [hnew]
  have hnotin := lookupPair_none hnew
  have hc : ¬ N > 1 + (m.length : Int) := by omega
  have heq := insert_color_capacity N m p hc hnotin
  rw [hg, heq]
  have hlen1 : 1 ≤ m.length := by omega
  have hm1perm : ((List.filter (fun e => !decide (e.2 = (m.length : Int))) m).map
      Prod.snd).Perm (idealSlots (m.length - 1)) := by
    rw [map_snd_filter_snd m ((m.length : Int))]
    exact (hperm.filter _).trans
      (by rw [idealSlots_filter_last m.length hlen1])
  have hm1len : (List.filter (fun e => !decide (e.2 = (m.length : Int))) m).length
      = m.length - 1 := by
    have hq := hm1perm.length_eq
    rw [List.length_map] at hq
    rw [hq, idealSlots_length]
  refine ⟨hfull, ?_, ?_, ?_, ?_⟩
  · simp only [List.length_cons, hm1len]
    omega
  · rw [← hfull]
    exact lookupPair_cons_self _ p _
  · intro e he he2
    simp only [List.map_cons, List.mem_cons]
    rintro (hp | hm1)
    · exact hnotin e he hp
    · obtain ⟨e', he', hfe⟩ := List.mem_map.mp hm1
      have hee : e' = e :=
        mem_keys_unique hkeys (List.mem_of_mem_filter he') he hfe
      have := List.of_mem_filter he'
      rw [hee] at this
      simp only [Bool.not_eq_eq_eq_not, Bool.not_true, decide_eq_false_iff_not] at this
      omega
  · intro e he hne
    apply List.mem_cons_of_mem
    apply List.mem_filter.mpr
    refine ⟨he, ?_⟩
    simp only [Bool.not_eq_eq_eq_not, Bool.not_true, decide_eq_false_iff_not]
    omega

/-- C6: after any sequence of `get_or_create` requests for distinct pairs
starting from the empty cache, against a terminal capacity `N ≥ 2` (within
the `i16` slot range), the cache holds at most `N - 1` entries, and the
most recently requested pair is present in the cache mapped to the slot
that the last call returned. -/
theorem c6_capacity_bound (N : Int) (hN : 2 ≤ N) (hN16 : N ≤ 32767)
    (ps : List ColorPair) (p : ColorPair) (hdist : (ps ++ [p]).Nodup) :
    ((runAll N [] (ps ++ [p])).2.length : Int) ≤ N - 1 ∧
      ∃ s : Int, (runAll N [] (ps ++ [p])).1.getLast? = some s ∧
        lookupPair (runAll N [] (ps ++ [p])).2 p = some s := by
  rw [runAll_append N ps p []]
  have hrun := runAll_inv N hN ps [] (cacheInv_nil N hN)
  have hstep := get_or_create_step N (runAll N [] ps).2 p hN hrun.1
  refine ⟨hstep.1.2.1, (get_or_create N (runAll N [] ps).2 p).1, ?_, hstep.2.2.2⟩
  exact List.getLast?_concat _

/-- C7: for every sequence of `get_or_create` calls starting from the
empty cache against a terminal capacity `N ≥ 2` (within the `i16` slot
range), every slot value ever returned and every slot value stored in the
mapping lies in `[1, N-1]`; in particular slot 0 is never allocated. -/
theorem c7_slot_range (N : Int) (hN : 2 ≤ N) (hN16 : N ≤ 32767)
    (ps : List ColorPair) :
    (∀ s ∈ (runAll N [] ps).1, 1 ≤ s ∧ s ≤ N - 1) ∧
      ∀ e ∈ (runAll N [] ps).2, 1 ≤ e.2 ∧ e.2 ≤ N - 1 := by
  have hrun := runAll_inv N hN ps [] (cacheInv_nil N hN)
  refine ⟨hrun.2, ?_⟩
  intro e he
  obtain ⟨hkeys, hlen, hperm⟩ := hrun.1
  have hm : e.2 ∈ (runAll N [] ps).2.map Prod.snd :=
    List.mem_map_of_mem Prod.snd he
  have := mem_idealSlots.mp (hperm.mem_iff.mp hm)
  omega

/-- C8: for any cache state and pair `p`, two consecutive
`get_or_create p` calls with no other mutation in between return the same
slot, leave the cache unchanged, and the second call performs no driver
palette-definition call. -/
theorem c8_memoization (N : Int) (m : Cache) (p : ColorPair) :
    (get_or_create N (get_or_create N m p).2.1 p).1 = (get_or_create N m p).1 ∧
      (get_or_create N (get_or_create N m p).2.1 p).2.1
        = (get_or_create N m p).2.1 ∧
      (get_or_create N (get_or_create N m p).2.1 p).2.2 = [] := by
  have hl := lookupPair_get_or_create N m p
  set r := get_or_create N m p with hr
  have hg2 : get_or_create N r.2.1 p = (r.1, r.2.1, []) := by
    unfold get_or_create
    rw [hl]
  rw [hg2]
  exact ⟨rfl, rfl, rfl⟩


/-- C9: a Dialog focused on its content, whose content ignores all events
and which has at least one button, handles a Down key by moving the focus
to `Button 0` and returning `Consumed` with no deferred action; a
subsequent Left key, with button 0 ignoring it, leaves the focus at
`Button 0` and is `Ignored` (since `i = 0`). -/
theorem c9_focus_transition (d : DialogM)
    (hf : d.focus = Focus.content)
    (hc : ∀ e, d.content.onEvent e = EventResult.ignored)
    (hb : d.buttons ≠ [])
    (hb0 : ∀ b, d.buttons[0]? = some b →
      b.onEvent (Event.key Key.left) = EventResult.ignored) :
    (d.onEvent (Event.key Key.down)).2 = EventResult.consumed none ∧
      (d.onEvent (Event.key Key.down)).1.focus = Focus.button 0 ∧
      ((d.onEvent (Event.key Key.down)).1.onEvent (Event.key Key.left)).2
        = EventResult.ignored ∧
      ((d.onEvent (Event.key Key.down)).1.onEvent (Event.key Key.left)).1.focus
        = Focus.button 0 := by
  obtain ⟨title, content, buttons, padding, borders, focus, align⟩ := d
  simp only at hf hc hb hb0
  subst hf
  cases buttons with
  | nil => exact absurd rfl hb
  | cons b bs =>
    have h1 : DialogM.onEvent
        ⟨title, content, b :: bs, padding, borders, Focus.content, align⟩
        (Event.key Key.down)
        = (⟨title, content, b :: bs, padding, borders, Focus.button 0, align⟩,
            EventResult.consumed none) := by
      simp [DialogM.onEvent, hc]
    rw [h1]
    have hbl : b.onEvent (Event.key Key.left) = EventResult.ignored :=
      hb0 b (by simp)
    have h2 : DialogM.onEvent
        ⟨title, content, b :: bs, padding, borders, Focus.button 0, align⟩
        (Event.key Key.left)
        = (⟨title, content, b :: bs, padding, borders, Focus.button 0, align⟩,
            EventResult.ignored) := by
      simp [DialogM.onEvent, hbl]
    rw [h2]
    exact ⟨rfl, rfl, rfl, rfl⟩

lemma focusInv_around (c : ChildView) : focusInv (DialogM.around c) := by
  constructor
  · intro _
    rfl
  · intro i hi
    simp [DialogM.around] at hi

lemma focusInv_button (d : DialogM) (b : ChildView) (h : focusInv d) :
    focusInv (d.button b) := by
  obtain ⟨h1, h2⟩ := h
  constructor
  · intro hbs
    simp [DialogM.button] at hbs
  · intro i hi
    have := h2 i hi
    simp only [DialogM.button, List.length_append, List.length_cons,
      List.length_nil]
    omega

lemma focusInv_set_content (d : DialogM) :
    focusInv { d with focus := Focus.content } :=
  ⟨fun _ => rfl, fun _ hj => Focus.noConfusion hj⟩

lemma focusInv_set_button (d : DialogM) (k : Nat) (hk : k < d.buttons.length) :
    focusInv { d with focus := Focus.button k } := by
  refine ⟨fun hnil => ?_, fun j hj => ?_⟩
  · exfalso
    have hk2 : k < d.buttons.length := hk
    rw [hnil] at hk2
    simp at hk2
  · have h0 : k = j := by injection hj
    rw [← h0]
    exact hk

lemma focusInv_onEvent (d : DialogM) (e : Event) (h : focusInv d) :
    focusInv (d.onEvent e).1 := by
  obtain ⟨h1, h2⟩ := h
  unfold DialogM.onEvent
  split
  · -- focus on the content
    rename_i hfoc
    split
    · split
      · exact ⟨h1, h2⟩
      · rename_i hbe
        have hbs : d.buttons ≠ [] := by
          intro hnil
          rw [hnil] at hbe
          simp at hbe
        have hpos : 0 < d.buttons.length := List.length_pos.mpr hbs
        split
        · exact focusInv_set_button d 0 hpos
        · exact focusInv_set_button d 0 hpos
        · exact focusInv_set_button d 0 hpos
        · exact ⟨h1, h2⟩
    · exact ⟨h1, h2⟩
  · -- focus on button i
    rename_i i hfoc
    split
    · exact ⟨h1, h2⟩
    · split
      · split
        · -- Up: try to go back to the content
          split
          · exact focusInv_set_content d
          · exact ⟨h1, h2⟩
        · -- Shift+Tab
          split
          · exact focusInv_set_content d
          · exact ⟨h1, h2⟩
        · -- Tab
          split
          · exact focusInv_set_content d
          · exact ⟨h1, h2⟩
        · -- Right
          split
          · rename_i hlt
            exact focusInv_set_button d (i + 1) hlt
          · exact ⟨h1, h2⟩
        · -- Left
          split
          · have hi := h2 i hfoc
            exact focusInv_set_button d (i - 1) (by omega)
          · exact ⟨h1, h2⟩
        · exact ⟨h1, h2⟩
      · exact ⟨h1, h2⟩

lemma focusInv_takeFocus (d : DialogM) (src : Direction) (h : focusInv d) :
    focusInv (d.takeFocus src).1 := by
  obtain ⟨h1, h2⟩ := h
  unfold DialogM.takeFocus
  split
  · exact focusInv_set_content d
  · split
    · rename_i hbe
      have hbs : d.buttons ≠ [] := by
        intro hnil
        rw [hnil] at hbe
        simp at hbe
      exact focusInv_set_button d 0 (List.length_pos.mpr hbs)
    · exact ⟨h1, h2⟩

/-- C10: every Dialog operation — construction (`around`), adding a
button, `on_event`, `take_focus` — preserves the focus-validity invariant
(focus is `Content` whenever the button list is empty, and a `Button i`
focus satisfies `i < buttons.length`); consequently the button-list index
access performed by `on_event` under `Button i` focus is always in
bounds. -/
theorem c10_focus_invariant :
    (∀ c : ChildView, focusInv (DialogM.around c)) ∧
      (∀ (d : DialogM) (b : ChildView), focusInv d → focusInv (d.button b)) ∧
      (∀ (d : DialogM) (e : Event), focusInv d → focusInv (d.onEvent e).1) ∧
      (∀ (d : DialogM) (i : Nat), focusInv d → d.focus = Focus.button i →
        (d.buttons[i]?).isSome = true) ∧
      (∀ (d : DialogM) (src : Direction), focusInv d →
        focusInv (d.takeFocus src).1) := by
  refine ⟨focusInv_around, focusInv_button, focusInv_onEvent, ?_,
    focusInv_takeFocus⟩
  intro d i h hf
  have hi := h.2 i hf
  rw [List.getElem?_eq_getElem hi]
  rfl


theorem c9_focus_transition_witness :
    oneButtonDialog.focus = Focus.content ∧
      (oneButtonDialog.onEvent (Event.key Key.down)).2
        = EventResult.consumed none ∧
      (oneButtonDialog.onEvent (Event.key Key.down)).1.focus
        = Focus.button 0 ∧
      ((oneButtonDialog.onEvent (Event.key Key.down)).1.onEvent
        (Event.key Key.left)).2 = EventResult.ignored ∧
      ((oneButtonDialog.onEvent (Event.key Key.down)).1.onEvent
        (Event.key Key.left)).1.focus = Focus.button 0 := by
  have h := c9_focus_transition oneButtonDialog rfl (fun _ => rfl)
    (by simp [oneButtonDialog])
    (fun b hb => by
      simp only [oneButtonDialog, List.getElem?_cons_zero, Option.some.injEq] at hb
      rw [← hb]
      rfl)
  exact ⟨rfl, h.1, h.2.1, h.2.2.1, h.2.2.2⟩

theorem c10_focus_invariant_witness :
    focusInv (DialogM.around passiveChild) ∧
      focusInv (oneButtonDialog.button passiveChild) ∧
      focusInv (oneButtonDialog.onEvent (Event.key Key.down)).1 ∧
      ((({ oneButtonDialog with focus := Focus.button 0 } : DialogM)).buttons[0]?).isSome
        = true ∧
      focusInv (oneButtonDialog.takeFocus Direction.down).1 := by
  have hinv : focusInv oneButtonDialog :=
    ⟨fun _ => rfl, fun _ hi => Focus.noConfusion hi⟩
  have hinv0 : focusInv ({ oneButtonDialog with focus := Focus.button 0 } : DialogM) := by
    refine ⟨fun hnil => ?_, fun j hj => ?_⟩
    · exact List.noConfusion hnil
    · have h0 : 0 = j := by injection hj
      simp [oneButtonDialog, ← h0]
  exact ⟨c10_focus_invariant.1 passiveChild,
    c10_focus_invariant.2.1 oneButtonDialog passiveChild hinv,
    c10_focus_invariant.2.2.1 oneButtonDialog (Event.key Key.down) hinv,
    c10_focus_invariant.2.2.2.1 _ 0 hinv0 rfl,
    c10_focus_invariant.2.2.2.2 oneButtonDialog Direction.down hinv⟩


/-- C1, counterexample: for the dialog of the claim (zero buttons, padding
top 1 / bottom 0 / left 1 / right 0, borders 1 on all sides, empty title,
content desiring `(10, 5)`) and an ample box `(100, 100)`, `required_size`
reports `(13, 8)` — not `(14, 8)` as the claim states (the claim's width
arithmetic counts a right padding of 1 that the configuration sets to 0). -/
theorem c1_required_size_counterexample :
    DialogM.requiredSize sizingDialog ⟨100, 100⟩ = ⟨13, 8⟩ ∧
      DialogM.requiredSize sizingDialog ⟨100, 100⟩ ≠ ⟨14, 8⟩ :=
  ⟨by decide, by decide⟩

/-- C1, amended: for a Dialog with zero buttons, padding top 1 / bottom 0 /
left 1 / right 0, borders 1 on all four sides, an empty title, and a
content widget whose desired size is `(10, 5)`, `required_size` reports
`(10+1+0+1+1, 5+1+0+1+1) = (13, 8)` whenever the box offered can
accommodate the `(3, 3)` overhead. -/
theorem c1_required_size_amended (req : Vec2)
    (hx : 3 ≤ req.x) (hy : 3 ≤ req.y) :
    DialogM.requiredSize sizingDialog req = ⟨13, 8⟩ := by
  unfold DialogM.requiredSize sizingDialog
  simp [passiveChild, Vec2.add, Vec4.combined, Vec2.checkedSub, hx, hy]

theorem c1_required_size_witness :
    3 ≤ (50 : Nat) ∧
      DialogM.requiredSize sizingDialog ⟨50, 50⟩ = ⟨13, 8⟩ :=
  ⟨by decide, c1_required_size_amended ⟨50, 50⟩ (by decide) (by decide)⟩


/-- C3, counterexample: `call_on_any` does not forward the search to every
child — in a dialog whose content matches nothing and whose single button
would apply the callback to descendant `42`, the dialog-level search
applies the callback to nobody (dialog.rs lines 395-398 forward only to
the content widget). -/
theorem c3_call_on_any_counterexample :
    ¬ ∀ b ∈ searchDialog.buttons, ∀ i ∈ b.callOnAny 0,
        i ∈ searchDialog.callOnAny 0 := by
  intro hall
  have hmem : matchButton ∈ searchDialog.buttons := by
    simp [searchDialog, DialogM.around, DialogM.button]
  have h42 := hall matchButton hmem 42 (by simp [matchButton, passiveChild])
  simp [DialogM.callOnAny, searchDialog, DialogM.around, DialogM.button,
    quietContent, passiveChild] at h42

/-- C3, amended: for every Dialog, selector and callback, `call_on_any`
forwards the search to the content widget only; the callback is applied
exactly to the matching descendants of the content, and buttons are never
searched. -/
theorem c3_call_on_any_amended (d : DialogM) (selector : Nat) :
    d.callOnAny selector = d.content.callOnAny selector ∧
      ∀ i, i ∈ d.callOnAny selector ↔ i ∈ d.content.callOnAny selector :=
  ⟨rfl, fun _ => Iff.rfl⟩

/-- C4, counterexample: `with_color` does not restore the previous style
on every path — when the requested pair equals the pre-call current style
(`⟨1,1⟩`), both guards are false, so a callback that itself changes the
style to `⟨2,2⟩` leaves `⟨2,2⟩` current after `with_color` returns. -/
theorem c4_with_color_counterexample :
    (with_color 8 ⟨⟨1, 1⟩, [], []⟩ ⟨1, 1⟩
        (fun t => set_colors 8 t ⟨2, 2⟩)).currentStyle = ⟨2, 2⟩ ∧
      (⟨⟨1, 1⟩, [], []⟩ : BState).currentStyle = ⟨1, 1⟩ ∧
      ((⟨2, 2⟩ : ColorPair) ≠ ⟨1, 1⟩) :=
  ⟨by decide, by decide, by decide⟩

/-- C4, amended: for every backend state, pair `p` and callback `f`,
`with_color p f` restores the pre-call current style after `f` returns
whenever `p` differs from the pre-call current style (when they are equal
the apply and restore steps are both skipped, and the style is whatever
`f` leaves). -/
theorem c4_with_color_amended (N : Int) (s : BState) (colors : ColorPair)
    (f : BState → BState) (h : colors ≠ s.currentStyle) :
    (with_color N s colors f).currentStyle = s.currentStyle := by
  unfold with_color
  rw [if_pos (Ne.symm h)]
  rfl

theorem c4_with_color_witness :
    ((⟨1, 1⟩ : ColorPair) ≠ (⟨0, 0⟩ : ColorPair)) ∧
      (with_color 8 ⟨⟨0, 0⟩, [], []⟩ ⟨1, 1⟩
        (fun t => set_colors 8 t ⟨2, 2⟩)).currentStyle = ⟨0, 0⟩ :=
  ⟨by decide, c4_with_color_amended 8 ⟨⟨0, 0⟩, [], []⟩ ⟨1, 1⟩
    (fun t => set_colors 8 t ⟨2, 2⟩) (by decide)⟩

/-- C2: decoding is total — for every raw input code and every
continuation-byte supplier, `poll_event` returns exactly one `Event`;
every code not matched by a specific rule of `parse_ncurses_char` yields
the raw/unknown event carrying the 4 little-endian bytes of the code;
code `-1` yields `Refresh`, code `9` yields `Tab`, and codes `1..25`
excluding 9 and 10 yield `Ctrl` of the character `'a' + code - 1`
(code point `97 + (code - 1)`). -/
theorem c2_total_decoding (ch : Int) (next : Nat → Nat) :
    parse_ncurses_char (-1) = Event.refresh ∧
      parse_ncurses_char 9 = Event.key Key.tab ∧
      (∀ c : Int, 1 ≤ c → c ≤ 25 → c ≠ 9 → c ≠ 10 →
        parse_ncurses_char c = Event.ctrlChar (97 + (c - 1)).toNat) ∧
      (∀ c : Int, recognized c = false →
        parse_ncurses_char c = Event.unknown (leBytes c)) ∧
      ∃! e : Event, poll_event ch next = e := by
  refine ⟨by decide, by decide, ?_, ?_,
    ⟨poll_event ch next, rfl, fun y hy => hy.symm⟩⟩
  · intro c h1 h2 h9 h10
    interval_cases c <;> first
      | exact absurd rfl h9
      | exact absurd rfl h10
      | decide
  · intro c hc
    unfold parse_ncurses_char
    rw [List.find?_eq_none.mpr fun x hx => ?_]
    intro hx1
    have := (List.any_eq_false.mp (by exact hc)) x hx
    exact this hx1

theorem c2_total_decoding_witness :
    ((1 : Int) ≤ 3 ∧ (3 : Int) ≤ 25 ∧ (3 : Int) ≠ 9 ∧ (3 : Int) ≠ 10 ∧
        parse_ncurses_char 3 = Event.ctrlChar 99) ∧
      (recognized 1000 = false ∧
        parse_ncurses_char 1000 = Event.unknown [232, 3, 0, 0]) := by
  have h := c2_total_decoding 1000 (fun _ => 0)
  refine ⟨⟨by decide, by decide, by decide, by decide, ?_⟩, by decide, ?_⟩
  · exact (h.2.2.1 3 (by decide) (by decide) (by decide) (by decide)).trans
      (by decide)
  · exact (h.2.2.2.1 1000 (by decide)).trans (by decide)


theorem c5_eviction_witness :
    ((2 : Int) ≤ 3 ∧ (3 : Int) ≤ 32767 ∧ cacheInv 3 fullCache ∧
        ((fullCache.length : Int) = 3 - 1) ∧
        lookupPair fullCache ⟨1, 1⟩ = none) ∧
      (get_or_create 3 fullCache ⟨1, 1⟩).1 = 3 - 1 ∧
      ((get_or_create 3 fullCache ⟨1, 1⟩).2.1.length : Int) = 3 - 1 ∧
      lookupPair (get_or_create 3 fullCache ⟨1, 1⟩).2.1 ⟨1, 1⟩
        = some (3 - 1) := by
  have h := c5_eviction 3 (by decide) (by decide) fullCache ⟨1, 1⟩
    (by decide) (by decide) (by decide)
  exact ⟨⟨by decide, by decide, by decide, by decide, by decide⟩,
    h.1, h.2.1, h.2.2.1⟩

theorem c6_capacity_bound_witness :
    ((([⟨0, 0⟩, ⟨0, 1⟩, ⟨1, 0⟩] : List ColorPair) ++ ([⟨1, 1⟩] : List ColorPair)).Nodup ∧
        (2 : Int) ≤ 3) ∧
      (((runAll 3 [] (([⟨0, 0⟩, ⟨0, 1⟩, ⟨1, 0⟩] : List ColorPair) ++ ([⟨1, 1⟩] : List ColorPair))).2.length : Int)
          ≤ 3 - 1 ∧
        ∃ s : Int,
          (runAll 3 [] (([⟨0, 0⟩, ⟨0, 1⟩, ⟨1, 0⟩] : List ColorPair) ++ ([⟨1, 1⟩] : List ColorPair))).1.getLast?
              = some s ∧
            lookupPair (runAll 3 [] (([⟨0, 0⟩, ⟨0, 1⟩, ⟨1, 0⟩] : List ColorPair) ++ ([⟨1, 1⟩] : List ColorPair))).2
                ⟨1, 1⟩
              = some s) := by
  have h := c6_capacity_bound 3 (by decide) (by decide)
    ([⟨0, 0⟩, ⟨0, 1⟩, ⟨1, 0⟩] : List ColorPair) ⟨1, 1⟩ (by decide)
  exact ⟨⟨by decide, by decide⟩, h⟩

theorem c7_slot_range_witness :
    (2 : Int) ≤ 3 ∧
      (∀ s ∈ (runAll 3 [] ([⟨0, 0⟩, ⟨0, 1⟩, ⟨1, 0⟩] : List ColorPair)).1,
        1 ≤ s ∧ s ≤ 3 - 1) ∧
      ∀ e ∈ (runAll 3 [] ([⟨0, 0⟩, ⟨0, 1⟩, ⟨1, 0⟩] : List ColorPair)).2,
        1 ≤ e.2 ∧ e.2 ≤ 3 - 1 := by
  have h := c7_slot_range 3 (by decide) (by decide)
    ([⟨0, 0⟩, ⟨0, 1⟩, ⟨1, 0⟩] : List ColorPair)
  exact ⟨by decide, h.1, h.2⟩
